import Mathlib

/-!
Shallow embedding of the Down-Monitor service (`src/app.py`): a Flask app
whose monitoring core periodically probes a fixed grouped list of HTTP
endpoints, keeps a bounded rolling history per endpoint, persists the state
to a JSON file, and aggregates it into a payload for the frontend.

Python dicts are modelled as insertion-ordered association lists
(`List (String × α)`), matching CPython's ordered-dict semantics that the
code relies on for iteration order. `datetime` timestamps are modelled as
`Nat` ticks with an `isoformat`/`fromisoformat` codec (decimal rendering):
the codec is injective and parsing fails on non-numeric strings, matching
the contract of the real `datetime` pair (round trip on produced strings,
`ValueError` on garbage input). Network I/O and exceptions are modelled as
explicit outcome values fed to the embedded functions.
-/

/-- The two status values the monitor writes, plus nothing else: 'up'/'down'
strings in the Python dicts. -/
inductive Status where
  | up
  | down
deriving DecidableEq, Repr

/-- One probe outcome as built by `check_website` (src/app.py:110-122): a dict
with `status`, `time`, optional `code` (success path only), optional `error`
(failure path only), and an ISO `timestamp` string. -/
structure ProbeResult where
  status : Status
  time : Nat
  code : Option Nat
  error : Option String
  timestamp : String
deriving DecidableEq, Repr

/-- src/app.py:20 — capacity of each rolling history. -/
def HISTORY_LENGTH : Nat := 20

/-- src/app.py:21 — seconds between scheduler cycles. -/
def UPDATE_INTERVAL : Nat := 30

/-- src/app.py:24-54 — the grouped endpoint configuration, in source order
(Python dicts preserve insertion order). -/
def SERVICE_GROUPS : List (String × List (String × String)) :=
  [("UIUC Services",
    [("Self-Service", "https://apps.uillinois.edu/selfservice"),
     ("Canvas", "https://canvas.illinois.edu"),
     ("MyIllini", "https://myillini.illinois.edu"),
     ("Course Explorer", "https://courses.illinois.edu"),
     ("UIUC Status", "https://status.illinois.edu"),
     ("Media Space", "https://mediaspace.illinois.edu"),
     ("APPS Directory", "https://apps.uillinois.edu"),
     ("Illinois.edu", "https://illinois.edu"),
     ("Student Affairs", "https://studentaffairs.illinois.edu"),
     ("Admissions", "https://admissions.illinois.edu"),
     ("University Housing", "https://housing.illinois.edu"),
     ("Library", "https://library.illinois.edu"),
     ("Technology Services", "https://techservices.illinois.edu"),
     ("Box", "https://uofi.box.com"),
     ("Webstore", "https://webstore.illinois.edu")]),
   ("General Services",
    [("OpenAI (ChatGPT)", "https://api.openai.com/v1/models"),
     ("AWS (Amazon)", "https://aws.amazon.com"),
     ("Google", "https://www.google.com"),
     ("Microsoft", "https://www.microsoft.com"),
     ("Apple", "https://www.apple.com"),
     ("GitHub", "https://github.com"),
     ("Chase Bank", "https://www.chase.com"),
     ("Bank of America", "https://www.bankofamerica.com"),
     ("PayPal", "https://www.paypal.com"),
     ("Stripe", "https://status.stripe.com")])]

/-- The flattened `(name, url)` list in the order `monitor_loop` visits it
(groups in order, sites in order within each group). -/
def configSites : List (String × String) :=
  SERVICE_GROUPS.foldr (fun g acc => g.2 ++ acc) []

/-- The configured endpoint names, in monitoring order. -/
def configNames : List String := configSites.map Prod.fst

/-- Timestamps: `datetime` values modelled as tick counts. -/
abbrev Timestamp := Nat

/-- Decimal digit character. -/
def digitChar (d : Nat) : Char := Char.ofNat (48 + d)

/-- Big-endian decimal digits of `n`, fuelled (fuel `n+1` always suffices). -/
def natDigits : Nat → Nat → List Char
  | 0, _ => []
  | fuel + 1, n =>
    if n < 10 then [digitChar n]
    else natDigits fuel (n / 10) ++ [digitChar (n % 10)]

/-- Models `datetime.isoformat`: render the timestamp as a (decimal) string. -/
def isoformat (t : Timestamp) : String := String.mk (natDigits (t + 1) t)

/-- Digit value of a character, `none` for non-digits. -/
def charDigit? (c : Char) : Option Nat :=
  if 48 ≤ c.toNat ∧ c.toNat ≤ 57 then some (c.toNat - 48) else none

/-- Accumulating decimal parser over a character list. -/
def parseDigits : List Char → Nat → Option Nat
  | [], acc => some acc
  | c :: cs, acc =>
    match charDigit? c with
    | some d => parseDigits cs (10 * acc + d)
    | none => none

/-- Models `datetime.fromisoformat`: parse a rendered timestamp, failing
(raising `ValueError` in Python) on malformed input. -/
def fromisoformat (s : String) : Option Timestamp :=
  match s.data with
  | [] => none
  | cs => parseDigits cs 0

/-- The process-wide mutable globals (src/app.py:57-59): `status_history`,
`current_status`, `last_check_time`. -/
structure MonState where
  status_history : List (String × List ProbeResult)
  current_status : List (String × ProbeResult)
  last_check_time : Option Timestamp
deriving DecidableEq, Repr

/-- The globals at process start, before `load_history` runs. -/
def initState : MonState := ⟨[], [], none⟩

/-- The JSON object written by `save_history` and read by `load_history`:
keys `history`, `current`, `last_check` (src/app.py:82-86). -/
structure SnapshotData where
  history : List (String × List ProbeResult)
  current : List (String × ProbeResult)
  last_check : Option String
deriving DecidableEq, Repr

/-- What `load_history` finds at `HISTORY_FILE`: no file, a file whose JSON
parse raises, or a parsed snapshot object. -/
inductive FileState where
  | absent
  | malformed
  | parsed (d : SnapshotData)
deriving DecidableEq, Repr

/-- Python `l[-n:]`: keep the last `n` elements (the whole list when shorter). -/
def tailKeep (n : Nat) (l : List α) : List α := l.drop (l.length - n)

/-- Python dict lookup (`m.get(k)` / `k in m`). First binding wins; the
modelled dicts have unique keys. -/
def alookup (m : List (String × α)) (k : String) : Option α :=
  match m with
  | [] => none
  | (k', v) :: rest => if k' = k then some v else alookup rest k

/-- Python dict assignment `m[k] = v`: update in place if the key exists
(dicts keep the key's position), otherwise append a new binding at the end. -/
def aupdate (m : List (String × α)) (k : String) (v : α) : List (String × α) :=
  match m with
  | [] => [(k, v)]
  | (k', v') :: rest => if k' = k then (k, v) :: rest else (k', v') :: aupdate rest k v

/-- src/app.py:61-77 `load_history`, as a function of the file state and the
pre-existing globals. Mirrors the statement order inside the `try`: the
`history` (trimmed in place to the last `HISTORY_LENGTH` entries) and
`current` assignments land first; only then is `last_check` parsed, and if
`datetime.fromisoformat` raises, the `except` swallows the error with the
earlier assignments already installed. An absent file or a `json.load`
failure leaves the globals untouched. A `last_check` value of `None` or `""`
is falsy, so the parse is skipped. -/
def load_history (file : FileState) (st : MonState) : MonState :=
  match file with
  | .absent => st
  | .malformed => st
  | .parsed d =>
    let st1 : MonState :=
      { st with
        status_history := d.history.map (fun p => (p.1, tailKeep HISTORY_LENGTH p.2)),
        current_status := d.current }
    match d.last_check with
    | none => st1
    | some s =>
      if s = "" then st1
      else
        match fromisoformat s with
        | some t => { st1 with last_check_time := some t }
        | none => st1

/-- src/app.py:79-90 `save_history`: the JSON object written (whole-file
overwrite). -/
def save_history (st : MonState) : SnapshotData :=
  { history := st.status_history,
    current := st.current_status,
    last_check := st.last_check_time.map isoformat }

/-- The network outcome of one `requests.get` call: either an HTTP response
(final status code after redirects, elapsed milliseconds) or an exception
whose `str` rendering is `msg`. The probe's `datetime.now().isoformat()`
string is also an input (`ts`). -/
inductive ProbeOutcome where
  | response (code : Nat) (elapsed : Nat) (ts : String)
  | exc (msg : String) (ts : String)
deriving DecidableEq, Repr

/-- src/app.py:108 — the hardcoded acceptance policy. -/
def acceptedCodes : List Nat := [200, 201, 202, 301, 302, 401, 403]

/-- src/app.py:95-122 `check_website`, as a function of the network outcome.
Every branch, the catch-all `except` included, returns a result dict. -/
def check_website (o : ProbeOutcome) : ProbeResult :=
  match o with
  | .response code elapsed ts =>
    { status := if code ∈ acceptedCodes then .up else .down,
      time := elapsed,
      code := some code,
      error := none,
      timestamp := ts }
  | .exc msg ts =>
    { status := .down,
      time := 0,
      code := none,
      error := some msg,
      timestamp := ts }

/-- src/app.py:134-144 — the per-endpoint body of the monitor loop: install
`result` in `current_status`, create the endpoint's history if missing,
append, and pop index 0 when the length exceeds `HISTORY_LENGTH`. -/
def processEndpoint (st : MonState) (name : String) (result : ProbeResult) : MonState :=
  let hist := (alookup st.status_history name).getD []
  let appended := hist ++ [result]
  let newHist := if HISTORY_LENGTH < appended.length then appended.tail else appended
  { st with
    current_status := aupdate st.current_status name result,
    status_history := aupdate st.status_history name newHist }

/-- What happens when the loop processes one endpoint: the probe's network
outcome, or an unexpected (non-network) error raised at that endpoint. -/
inductive StepInput where
  | probe (o : ProbeOutcome)
  | raise (msg : String)
deriving DecidableEq, Repr

/-- The `for` loops of src/app.py:130-144, driven by one `StepInput` per
configured site. Returns the state, the names probed in order, and the
message of the unexpected error, if one was raised: such an error propagates
out of the `for` loops at once, abandoning the remaining sites. -/
def runSites (st : MonState) : List ((String × String) × StepInput) → MonState × List String × Option String
  | [] => (st, [], none)
  | (site, .probe o) :: rest =>
    let st' := processEndpoint st site.1 (check_website o)
    let (stf, tr, e) := runSites st' rest
    (stf, site.1 :: tr, e)
  | (_, .raise msg) :: _ => (st, [], some msg)

/-- One iteration of the `while True` body (src/app.py:127-153): run the
site loops over the configured sites inside `try`; when they complete, set
`last_check_time` to the completion timestamp `now` and call `save_history`;
when an unexpected error was raised, the `except` logs it and neither the
timestamp update nor the save happens. Returns the new globals and the
snapshot written this cycle, if any. -/
def monitorCycle (st : MonState) (inputs : List StepInput) (now : Timestamp) :
    MonState × Option SnapshotData :=
  match runSites st (configSites.zip inputs) with
  | (st', _, none) =>
    let st'' := { st' with last_check_time := some now }
    (st'', some (save_history st''))
  | (st', _, some _) => (st', none)

/-- src/app.py:124-153 `monitor_loop`, unrolled over a finite schedule of
cycles (each with its per-site inputs and its completion timestamp): the
loop body runs cycle after cycle regardless of per-cycle errors. -/
def monitor_loop (st : MonState) : List (List StepInput × Timestamp) → MonState
  | [] => st
  | (inputs, now) :: rest => monitor_loop (monitorCycle st inputs now).1 rest

/-- Number of `'up'` entries in a history (src/app.py:166). -/
def upCount (history : List ProbeResult) : Nat :=
  (history.filter (fun h => h.status = Status.up)).length

/-- Round half to even (the convention of Python's built-in `round`). -/
def roundHalfEven (q : ℚ) : ℤ :=
  let f := ⌊q⌋
  let r := q - (f : ℚ)
  if r < 1 / 2 then f
  else if 1 / 2 < r then f + 1
  else if f % 2 = 0 then f else f + 1

/-- src/app.py:164-169 — uptime of a history: `0.0` when empty, otherwise
`round((up_count / len(history)) * 100, 1)` (one decimal place, modelled on
the exact ratio). -/
def uptimePercent (history : List ProbeResult) : ℚ :=
  if history.isEmpty then 0
  else (roundHalfEven ((upCount history : ℚ) / (history.length : ℚ) * 100 * 10) : ℚ) / 10

/-- The `current` field of a payload entry: the cached `ProbeResult`, or the
`{'status': 'unknown', 'time': 0}` default (src/app.py:176). -/
inductive CurrentView where
  | known (r : ProbeResult)
  | unknownDefault
deriving DecidableEq, Repr

/-- One element of a group's `site_list` in the payload (src/app.py:172-178). -/
structure SiteEntry where
  name : String
  url : String
  uptime : ℚ
  current : CurrentView
  history : List ProbeResult
deriving DecidableEq, Repr

/-- Python's `<` on strings: lexicographic comparison by code point. -/
def charsLt : List Char → List Char → Bool
  | [], [] => false
  | [], _ :: _ => true
  | _ :: _, [] => false
  | c :: cs, d :: ds =>
    if c.toNat < d.toNat then true
    else if d.toNat < c.toNat then false
    else charsLt cs ds

/-- Python's `<=` on strings (key comparison used by `list.sort`). -/
def strLe (a b : String) : Bool := !(charsLt b.data a.data)

/-- Stable insertion into a name-sorted list: an element goes before the
first strictly greater name, after equal ones. -/
def insertByName (x : SiteEntry) : List SiteEntry → List SiteEntry
  | [] => [x]
  | y :: ys => if strLe x.name y.name then x :: y :: ys else y :: insertByName x ys

/-- Python's stable `site_list.sort(key=lambda x: x['name'])`
(src/app.py:181), as an insertion sort. -/
def sortByName (l : List SiteEntry) : List SiteEntry :=
  l.foldr insertByName []

/-- The unsorted `site_list` of one group (src/app.py:160-178). -/
def siteEntries (st : MonState) (sites : List (String × String)) : List SiteEntry :=
  sites.map (fun site =>
    { name := site.1,
      url := site.2,
      uptime := uptimePercent ((alookup st.status_history site.1).getD []),
      current := match alookup st.current_status site.1 with
        | some r => .known r
        | none => .unknownDefault,
      history := (alookup st.status_history site.1).getD [] })

/-- The value returned by src/app.py:155-187 `get_payload`. -/
structure Payload where
  last_check : Option String
  groups : List (String × List SiteEntry)
deriving DecidableEq, Repr

/-- src/app.py:155-187 `get_payload`: per group, build the site list in
configuration order, then sort it alphabetically by name. -/
def get_payload (st : MonState) : Payload :=
  { last_check := st.last_check_time.map isoformat,
    groups := SERVICE_GROUPS.map (fun g => (g.1, sortByName (siteEntries st g.2))) }

theorem charDigit?_digitChar (d : Nat) (h : d < 10) : charDigit? (digitChar d) = some d := by
  interval_cases d <;> rfl

theorem parseDigits_append (l1 l2 : List Char) (acc : Nat) :
    parseDigits (l1 ++ l2) acc = (parseDigits l1 acc).bind (fun a => parseDigits l2 a) := by
  induction l1 generalizing acc with
  | nil => rfl
  | cons c cs ih =>
    simp only [List.cons_append, parseDigits]
    cases charDigit? c with
    | none => rfl
    | some d => exact ih _

theorem natDigits_ne_nil (fuel n : Nat) (h : 0 < fuel) : natDigits fuel n ≠ [] := by
  cases fuel with
  | zero => omega
  | succ f =>
    simp only [natDigits]
    split
    · simp
    · simp

theorem parseDigits_natDigits (fuel n : Nat) (h : n < 10 ^ fuel) :
    parseDigits (natDigits fuel n) 0 = some n := by
  induction fuel generalizing n with
  | zero =>
    have hn : n = 0 := by simpa [Nat.lt_one_iff] using h
    subst hn; rfl
  | succ f ih =>
    simp only [natDigits]
    split
    · next hlt =>
      simp only [parseDigits, charDigit?_digitChar n hlt]
      norm_num
    · next hge =>
      rw [parseDigits_append, ih (n / 10) ?_]
      · have hmod : n % 10 < 10 := Nat.mod_lt _ (by omega)
        simp only [Option.bind_some, parseDigits, charDigit?_digitChar _ hmod]
        have := Nat.div_add_mod n 10
        have : 10 * (n / 10) + n % 10 = n := this
        simp [this]
      · have : n < 10 ^ f * 10 := by
          rw [pow_succ] at h; exact h
        exact Nat.div_lt_of_lt_mul (by omega)

theorem fromisoformat_isoformat (t : Timestamp) : fromisoformat (isoformat t) = some t := by
  have hfuel : t < 10 ^ (t + 1) := by
    calc t < 10 ^ t := Nat.lt_pow_self (by omega) t
    _ ≤ 10 ^ (t + 1) := Nat.pow_le_pow_right (by omega) (by omega)
  have hne := natDigits_ne_nil (t + 1) t (by omega)
  have hparse := parseDigits_natDigits (t + 1) t hfuel
  unfold isoformat fromisoformat
  cases hd : natDigits (t + 1) t with
  | nil => exact absurd hd hne
  | cons c cs => rw [hd] at hparse; exact hparse

theorem isoformat_ne_empty (t : Timestamp) : isoformat t ≠ "" := by
  have hne := natDigits_ne_nil (t + 1) t (by omega)
  unfold isoformat
  intro hcontra
  apply hne
  have : (String.mk (natDigits (t + 1) t)).data = ("" : String).data := by rw [hcontra]
  simpa using this

theorem alookup_aupdate_self (m : List (String × α)) (k : String) (v : α) :
    alookup (aupdate m k v) k = some v := by
  induction m with
  | nil => simp [aupdate, alookup]
  | cons p rest ih =>
    simp only [aupdate]
    split
    · simp [alookup]
    · next hne => simp only [alookup, if_neg hne]; exact ih

theorem alookup_aupdate_ne (m : List (String × α)) (k k' : String) (v : α) (h : k ≠ k') :
    alookup (aupdate m k v) k' = alookup m k' := by
  induction m with
  | nil => simp [aupdate, alookup, h]
  | cons p rest ih =>
    simp only [aupdate]
    split
    · next heq => simp [alookup, heq, h]
    · simp only [alookup]; split <;> simp [ih]

theorem alookup_map (m : List (String × α)) (f : α → β) (k : String) :
    alookup (m.map (fun p => (p.1, f p.2))) k = (alookup m k).map f := by
  induction m with
  | nil => rfl
  | cons p rest ih =>
    simp only [List.map, alookup]
    split <;> simp [ih]

theorem tailKeep_length_le (n : Nat) (l : List α) : (tailKeep n l).length ≤ n := by
  simp [tailKeep]; omega

theorem tailKeep_of_le (n : Nat) (l : List α) (h : l.length ≤ n) : tailKeep n l = l := by
  simp [tailKeep, Nat.sub_eq_zero_of_le h]

/-- All history lists held in the state are within capacity. -/
def histBound (st : MonState) : Prop :=
  ∀ n h, alookup st.status_history n = some h → h.length ≤ HISTORY_LENGTH

theorem tail_append_singleton (l : List α) (x : α) (h : l ≠ []) :
    (l ++ [x]).tail = l.tail ++ [x] := by
  cases l with
  | nil => exact absurd rfl h
  | cons a as => rfl

theorem processEndpoint_history_self (st : MonState) (name : String) (r : ProbeResult) :
    alookup (processEndpoint st name r).status_history name =
      some (let appended := ((alookup st.status_history name).getD []) ++ [r]
            if HISTORY_LENGTH < appended.length then appended.tail else appended) := by
  simp only [processEndpoint]
  exact alookup_aupdate_self _ _ _

theorem processEndpoint_history_other (st : MonState) (name n : String) (r : ProbeResult)
    (h : name ≠ n) :
    alookup (processEndpoint st name r).status_history n = alookup st.status_history n := by
  simp only [processEndpoint]
  exact alookup_aupdate_ne _ _ _ _ h

theorem load_parsed_history (d : SnapshotData) (st : MonState) :
    (load_history (.parsed d) st).status_history =
      d.history.map (fun p => (p.1, tailKeep HISTORY_LENGTH p.2)) := by
  simp only [load_history]
  cases d.last_check with
  | none => rfl
  | some s =>
    by_cases hs : s = ""
    · simp [hs]
    · cases hp : fromisoformat s <;> simp [hs, hp]

/-- C1: for every endpoint, the history length never exceeds the capacity
`HISTORY_LENGTH`: it is preserved by every append step of the monitor loop, a
full history evicts exactly its oldest entry (index 0) on append, every
restore from a parsed snapshot leaves all histories within capacity, and a
restore from any file state at startup does too. -/
theorem c1_history_bounded :
    (∀ st name r, histBound st → histBound (processEndpoint st name r)) ∧
    (∀ st name r hist, alookup st.status_history name = some hist →
      hist.length = HISTORY_LENGTH →
      alookup (processEndpoint st name r).status_history name = some (hist.tail ++ [r])) ∧
    (∀ d st, histBound (load_history (.parsed d) st)) ∧
    (∀ f, histBound (load_history f initState)) := by
  have happend : ∀ st name r, histBound st → histBound (processEndpoint st name r) := by
    intro st name r hb n h hl
    by_cases hn : name = n
    · subst hn
      rw [processEndpoint_history_self] at hl
      simp only [Option.some_inj] at hl
      subst hl
      cases hcur : alookup st.status_history name with
      | none =>
        simp only [hcur, Option.getD_none]
        split <;> simp_all [HISTORY_LENGTH]
      | some h0 =>
        have hb0 := hb name h0 hcur
        simp only [hcur, Option.getD_some]
        split
        · next hgt =>
          simp only [List.length_append, List.length_cons, List.length_nil] at hgt
          simp only [List.length_tail, List.length_append, List.length_cons, List.length_nil]
          omega
        · next hle =>
          simp only [List.length_append, List.length_cons, List.length_nil] at hle ⊢
          omega
    · rw [processEndpoint_history_other st name n r hn] at hl
      exact hb n h hl
  have hparsed : ∀ d st, histBound (load_history (.parsed d) st) := by
    intro d st n h hl
    rw [load_parsed_history] at hl
    rw [show (fun p : String × List ProbeResult => (p.1, tailKeep HISTORY_LENGTH p.2)) =
      (fun p : String × List ProbeResult => (p.1, (fun l => tailKeep HISTORY_LENGTH l) p.2)) from rfl,
      alookup_map] at hl
    cases hx : alookup d.history n with
    | none => simp [hx] at hl
    | some h0 =>
      rw [hx, Option.map_some'] at hl
      injection hl with hl
      subst hl
      exact tailKeep_length_le _ _
  refine ⟨happend, ?_, hparsed, ?_⟩
  · intro st name r hist hl hlen
    rw [processEndpoint_history_self, hl]
    simp only [Option.getD_some, Option.some_inj]
    have hne : hist ≠ [] := by
      intro hc; rw [hc] at hlen; simp [HISTORY_LENGTH] at hlen
    rw [if_pos (by simp [List.length_append]; omega), tail_append_singleton _ _ hne]
  · intro f
    cases f with
    | absent => intro n h hl; simp [load_history, initState, alookup] at hl
    | malformed => intro n h hl; simp [load_history, initState, alookup] at hl
    | parsed d => exact hparsed d initState

/-- A concrete successful probe result, for witnesses. -/
def upR : ProbeResult :=
  { status := .up, time := 5, code := some 200, error := none, timestamp := "t1" }

/-- A concrete failed probe result, for witnesses. -/
def downR : ProbeResult :=
  { status := .down, time := 0, code := none, error := some "boom", timestamp := "t2" }

/-- A state holding one full-capacity history, for witnesses. -/
def st20 : MonState := ⟨[("Canvas", List.replicate 20 upR)], [], none⟩

/-- C1 witness: appending to a history already at capacity 20 drops exactly
the oldest entry. -/
theorem c1_history_bounded_witness :
    alookup (processEndpoint st20 "Canvas" downR).status_history "Canvas"
      = some ((List.replicate 20 upR).tail ++ [downR]) :=
  c1_history_bounded.2.1 st20 "Canvas" downR (List.replicate 20 upR) (by decide) (by decide)

theorem runSites_probe_prefix (pz : List ((String × String) × ProbeOutcome))
    (st : MonState) (site : String × String) (msg : String)
    (tailz : List ((String × String) × StepInput)) :
    runSites st (pz.map (fun p => (p.1, StepInput.probe p.2)) ++ (site, .raise msg) :: tailz)
      = (pz.foldl (fun s p => processEndpoint s p.1.1 (check_website p.2)) st,
         pz.map (fun p => p.1.1), some msg) := by
  induction pz generalizing st with
  | nil => rfl
  | cons p ps ih =>
    simp only [List.map, List.cons_append, runSites, List.foldl, List.append_eq]
    rw [ih]

theorem zip_append_cons (l1 : List α) (o1 : List β) (x : α) (y : β) (l2 : List α) (o2 : List β)
    (h : l1.length = o1.length) :
    (l1 ++ x :: l2).zip (o1 ++ y :: o2) = l1.zip o1 ++ (x, y) :: l2.zip o2 := by
  induction l1 generalizing o1 with
  | nil =>
    cases o1 with
    | nil => rfl
    | cons _ _ => simp at h
  | cons a as ih =>
    cases o1 with
    | nil => simp at h
    | cons b bs =>
      simp only [List.length_cons] at h
      simp only [List.cons_append, List.zip_cons_cons]
      rw [ih bs (by omega)]

theorem zip_map_probe (l : List (String × String)) (o : List ProbeOutcome) :
    l.zip (o.map StepInput.probe) = (l.zip o).map (fun p => (p.1, StepInput.probe p.2)) := by
  induction l generalizing o with
  | nil => rfl
  | cons a as ih =>
    cases o with
    | nil => rfl
    | cons b bs =>
      simp only [List.map, List.zip_cons_cons]
      rw [ih]
      rfl

/-- C2 counterexample: an unexpected error at the second configured endpoint
aborts the cycle — the third configured endpoint ("MyIllini") is never probed
or appended in that cycle, only the first endpoint's result is installed, and
no snapshot is saved. -/
theorem c2_counterexample :
    ((monitorCycle initState [.probe (.response 200 5 "t"), .raise "boom"] 1).1.status_history.map
        Prod.fst = ["Self-Service"]) ∧
    alookup (monitorCycle initState [.probe (.response 200 5 "t"), .raise "boom"]
      1).1.status_history "MyIllini" = none ∧
    (monitorCycle initState [.probe (.response 200 5 "t"), .raise "boom"] 1).2 = none := by
  decide

/-- C2 amended: an unexpected error while processing one endpoint is caught
(by the `except` around the whole cycle body, src/app.py:128-151) and the
monitor loop itself never terminates — it proceeds with the next cycle — but
the error aborts the remainder of the current cycle: the endpoints after the
failing one are not probed in that cycle, and the cycle's `last_check_time`
update and snapshot save are both skipped. -/
theorem c2_cycle_error_aborts (st : MonState) (sites1 sites2 : List (String × String))
    (site : String × String) (pre : List ProbeOutcome) (msg : String)
    (rest : List StepInput) (now : Timestamp)
    (hsplit : configSites = sites1 ++ site :: sites2) (hlen : pre.length = sites1.length)
    (cycles : List (List StepInput × Timestamp)) :
    monitorCycle st (pre.map StepInput.probe ++ StepInput.raise msg :: rest) now
      = ((sites1.zip pre).foldl (fun s p => processEndpoint s p.1.1 (check_website p.2)) st,
         none) ∧
    monitor_loop st ((pre.map StepInput.probe ++ StepInput.raise msg :: rest, now) :: cycles)
      = monitor_loop
          ((sites1.zip pre).foldl (fun s p => processEndpoint s p.1.1 (check_website p.2)) st)
          cycles := by
  have hzip : configSites.zip (pre.map StepInput.probe ++ StepInput.raise msg :: rest)
      = (sites1.zip pre).map (fun p => (p.1, StepInput.probe p.2))
        ++ (site, StepInput.raise msg) :: sites2.zip rest := by
    rw [hsplit, zip_append_cons _ _ _ _ _ _ (by simp [hlen]), zip_map_probe]
  have hcycle : monitorCycle st (pre.map StepInput.probe ++ StepInput.raise msg :: rest) now
      = ((sites1.zip pre).foldl (fun s p => processEndpoint s p.1.1 (check_website p.2)) st,
         none) := by
    unfold monitorCycle
    rw [hzip, runSites_probe_prefix]
  refine ⟨hcycle, ?_⟩
  show monitor_loop (monitorCycle st _ now).1 cycles = _
  rw [hcycle]

/-- C2 amended witness: concrete cycle whose second endpoint raises. -/
theorem c2_cycle_error_aborts_witness :
    monitorCycle initState [StepInput.probe (.response 200 5 "t"), StepInput.raise "boom"] 1
      = (([(("Self-Service" : String), ("https://apps.uillinois.edu/selfservice" : String))].zip
          [ProbeOutcome.response 200 5 "t"]).foldl
            (fun s p => processEndpoint s p.1.1 (check_website p.2)) initState, none) :=
  (c2_cycle_error_aborts initState [("Self-Service", "https://apps.uillinois.edu/selfservice")]
    (configSites.drop 2) ("Canvas", "https://canvas.illinois.edu")
    [.response 200 5 "t"] "boom" [] 1 (by decide) (by decide) []).1

/-- C3: the uptime percentage is `0.0` for an empty history (defined, not an
error); otherwise it is `100 * (Up entries) / (total entries)` rounded to a
fixed decimal precision — the implementation pins one decimal place
(`round(x, 1)`), so a history of 1 Up and 2 Down entries yields `33.3`. -/
theorem c3_uptime_percent :
    uptimePercent [] = 0 ∧
    uptimePercent [upR, downR, downR] = 333 / 10 ∧
    (∀ h : List ProbeResult, h ≠ [] →
      uptimePercent h
        = (roundHalfEven (100 * (upCount h : ℚ) / (h.length : ℚ) * 10) : ℚ) / 10) := by
  refine ⟨rfl, ?_, ?_⟩
  · have hcount : upCount [upR, downR, downR] = 1 := by decide
    have hlen : ([upR, downR, downR] : List ProbeResult).length = 3 := by decide
    have harg : ((upCount [upR, downR, downR] : ℚ)
        / (([upR, downR, downR] : List ProbeResult).length : ℚ) * 100 * 10) = 1000 / 3 := by
      rw [hcount, hlen]; norm_num
    have hfl : ⌊(1000 / 3 : ℚ)⌋ = 333 := by
      rw [Int.floor_eq_iff]
      norm_num
    have hr : roundHalfEven (1000 / 3) = 333 := by
      unfold roundHalfEven
      rw [hfl]
      norm_num
    unfold uptimePercent
    rw [if_neg (by decide), harg, hr]
    norm_num
  · intro h hne
    unfold uptimePercent
    rw [if_neg (by simpa using hne)]
    have harg : (upCount h : ℚ) / (h.length : ℚ) * 100 * 10
        = 100 * (upCount h : ℚ) / (h.length : ℚ) * 10 := by ring
    rw [harg]

/-- C3 witness: the general rounding formula applied to a one-entry history. -/
theorem c3_uptime_percent_witness :
    uptimePercent [upR]
      = (roundHalfEven (100 * (upCount [upR] : ℚ)
          / (([upR] : List ProbeResult).length : ℚ) * 10) : ℚ) / 10 :=
  c3_uptime_percent.2.2 [upR] (by decide)

/-- A parsed snapshot whose `last_check` string cannot be parsed. -/
def badSnap : SnapshotData := ⟨[("X", [upR])], [("X", upR)], some "garbage"⟩

/-- C4 counterexample: a well-formed JSON snapshot whose `last_check`
timestamp is unparsable does NOT yield the empty state — the history and
current-status entries are already assigned before `datetime.fromisoformat`
raises, so they stay installed; only the timestamp is dropped. -/
theorem c4_counterexample :
    fromisoformat "garbage" = none ∧
    alookup (load_history (.parsed badSnap) initState).status_history "X" = some [upR] ∧
    alookup (load_history (.parsed badSnap) initState).current_status "X" = some upR ∧
    load_history (.parsed badSnap) initState ≠ initState := by
  decide

/-- C4 amended: loading never raises past the load boundary; an absent file
or a malformed-JSON file leaves the (empty) startup state untouched; but a
parsed snapshot with an unparsable `last_check` installs the trimmed history
and the current-status entries anyway — only `last_check_time` is left as it
was. -/
theorem c4_load_on_corrupt (st : MonState) (d : SnapshotData) (s : String)
    (hlc : d.last_check = some s) (hne : s ≠ "") (hbad : fromisoformat s = none) :
    load_history .absent initState = initState ∧
    load_history .malformed initState = initState ∧
    load_history (.parsed d) st
      = { status_history := d.history.map (fun p => (p.1, tailKeep HISTORY_LENGTH p.2)),
          current_status := d.current,
          last_check_time := st.last_check_time } := by
  refine ⟨rfl, rfl, ?_⟩
  simp only [load_history, hlc]
  rw [if_neg hne, hbad]

/-- C4 amended witness: the concrete bad snapshot. -/
theorem c4_load_on_corrupt_witness :
    load_history (.parsed badSnap) initState
      = { status_history := badSnap.history.map (fun p => (p.1, tailKeep HISTORY_LENGTH p.2)),
          current_status := badSnap.current,
          last_check_time := initState.last_check_time } :=
  (c4_load_on_corrupt initState badSnap "garbage" (by decide) (by decide) (by decide)).2.2

/-- C5: a probe whose request raises (timeout, DNS failure, TLS failure,
connection refused, or any other exception) returns a structured result with
status Down, elapsed time 0, no status code, and the exception's rendering
as the error detail (non-empty whenever the exception's message is); and
`check_website` is total — every execution path returns a `ProbeResult`. -/
theorem c5_transport_failure (msg ts : String) :
    check_website (.exc msg ts)
      = { status := .down, time := 0, code := none, error := some msg, timestamp := ts } ∧
    (msg ≠ "" → ¬ (check_website (.exc msg ts)).error = some "") ∧
    (∀ o : ProbeOutcome, ∃ r : ProbeResult, check_website o = r) := by
  refine ⟨rfl, ?_, fun o => ⟨check_website o, rfl⟩⟩
  intro hmsg hc
  apply hmsg
  simpa [check_website] using hc

/-- C5 witness: a concrete timeout exception. -/
theorem c5_transport_failure_witness :
    ¬ (check_website (.exc "HTTPSConnectionPool: Read timed out" "t3")).error = some "" :=
  (c5_transport_failure "HTTPSConnectionPool: Read timed out" "t3").2.1 (by decide)

/-- C7: for a probe that received an HTTP response, the result's status is Up
iff the final status code is in the accepted set [200, 201, 202, 301, 302,
401, 403]; in particular a 401 response yields Up, and any received code
outside the set yields Down. -/
theorem c7_up_iff_accepted :
    (∀ code elapsed ts, (check_website (.response code elapsed ts)).status = .up
      ↔ code ∈ acceptedCodes) ∧
    (∀ elapsed ts, (check_website (.response 401 elapsed ts)).status = .up) ∧
    (∀ code elapsed ts, code ∉ acceptedCodes →
      (check_website (.response code elapsed ts)).status = .down) := by
  refine ⟨?_, ?_, ?_⟩
  · intro code elapsed ts
    by_cases hc : code ∈ acceptedCodes <;> simp [check_website, hc]
  · intro elapsed ts
    rfl
  · intro code elapsed ts hc
    simp [check_website, hc]

/-- C7 witness: HTTP 500 is outside the accepted set and yields Down. -/
theorem c7_up_iff_accepted_witness :
    (check_website (.response 500 7 "t4")).status = .down :=
  c7_up_iff_accepted.2.2 500 7 "t4" (by decide)

theorem map_tailKeep_id (l : List (String × List ProbeResult))
    (h : ∀ p ∈ l, p.2.length ≤ HISTORY_LENGTH) :
    l.map (fun p => (p.1, tailKeep HISTORY_LENGTH p.2)) = l := by
  induction l with
  | nil => rfl
  | cons p ps ih =>
    simp only [List.map]
    rw [tailKeep_of_le _ _ (h p (by simp)), ih (fun q hq => h q (by simp [hq]))]

/-- C6: persistence round-trips without loss modulo capacity truncation:
loading the snapshot saved from any state whose histories are within
capacity reproduces that state exactly (from the empty startup globals), and
loading a persisted history longer than the capacity installs exactly its
most recent `HISTORY_LENGTH` entries. -/
theorem c6_persistence_roundtrip :
    (∀ st : MonState, (∀ p ∈ st.status_history, p.2.length ≤ HISTORY_LENGTH) →
      load_history (.parsed (save_history st)) initState = st) ∧
    (∀ d name hist, alookup d.history name = some hist →
      HISTORY_LENGTH < hist.length →
      alookup (load_history (.parsed d) initState).status_history name
          = some (tailKeep HISTORY_LENGTH hist) ∧
      (tailKeep HISTORY_LENGTH hist).length = HISTORY_LENGTH) := by
  constructor
  · intro st hb
    simp only [load_history, save_history]
    cases hlc : st.last_check_time with
    | none =>
      simp only [Option.map_none']
      rw [map_tailKeep_id _ hb]
      cases st
      simp_all [initState]
    | some t =>
      simp only [Option.map_some']
      rw [if_neg (isoformat_ne_empty t), fromisoformat_isoformat]
      rw [map_tailKeep_id _ hb]
      cases st
      simp_all [initState]
  · intro d name hist hl hgt
    constructor
    · rw [load_parsed_history]
      rw [show (fun p : String × List ProbeResult => (p.1, tailKeep HISTORY_LENGTH p.2))
          = (fun p : String × List ProbeResult =>
              (p.1, (fun l => tailKeep HISTORY_LENGTH l) p.2)) from rfl,
        alookup_map, hl, Option.map_some']
    · simp only [tailKeep, List.length_drop]
      omega

/-- A concrete state within capacity, for the round-trip witness. -/
def stW : MonState := ⟨[("A", [upR, downR])], [("A", downR)], some 5⟩

/-- C6 witness: the concrete state `stW` survives a save/load round trip. -/
theorem c6_persistence_roundtrip_witness :
    load_history (.parsed (save_history stW)) initState = stW :=
  c6_persistence_roundtrip.1 stW (by decide)

/-- Stable insertion into a sorted list of names (the key-level picture of
`insertByName`). -/
def insertName (x : String) : List String → List String
  | [] => [x]
  | y :: ys => if strLe x y then x :: y :: ys else y :: insertName x ys

/-- Alphabetical sort of plain names under Python's string order. -/
def sortNames (l : List String) : List String := l.foldr insertName []

theorem map_name_insertByName (x : SiteEntry) (l : List SiteEntry) :
    (insertByName x l).map (fun e => e.name) = insertName x.name (l.map (fun e => e.name)) := by
  induction l with
  | nil => rfl
  | cons y ys ih =>
    simp only [insertByName, insertName, List.map]
    by_cases h : strLe x.name y.name <;> simp [h, ih]

theorem map_name_sortByName (l : List SiteEntry) :
    (sortByName l).map (fun e => e.name) = sortNames (l.map (fun e => e.name)) := by
  unfold sortByName sortNames
  induction l with
  | nil => rfl
  | cons x xs ih =>
    simp only [List.foldr, List.map]
    rw [map_name_insertByName, ih]

theorem map_name_siteEntries (st : MonState) (sites : List (String × String)) :
    (siteEntries st sites).map (fun e => e.name) = sites.map Prod.fst := by
  simp [siteEntries, List.map_map]

theorem payload_names_general (st : MonState) (gs : List (String × List (String × String))) :
    (gs.map (fun g => (g.1, sortByName (siteEntries st g.2)))).map
        (fun p => (p.1, p.2.map (fun e => e.name)))
      = gs.map (fun g => (g.1, sortNames (g.2.map Prod.fst))) := by
  induction gs with
  | nil => rfl
  | cons g rest ih =>
    simp only [List.map]
    rw [ih, map_name_sortByName, map_name_siteEntries]

theorem runSites_all_probe_trace (sites : List (String × String)) (outs : List ProbeOutcome)
    (st : MonState) (h : outs.length = sites.length) :
    (runSites st (sites.zip (outs.map StepInput.probe))).2.1 = sites.map Prod.fst := by
  induction sites generalizing outs st with
  | nil => rfl
  | cons a as ih =>
    cases outs with
    | nil => simp at h
    | cons o os =>
      simp only [List.length_cons] at h
      simp only [List.map, List.zip_cons_cons, runSites]
      show a.1 :: (runSites (processEndpoint st a.1 (check_website o))
          (as.zip (List.map StepInput.probe os))).2.1 = a.1 :: List.map Prod.fst as
      rw [ih os _ (by omega)]

/-- C8 counterexample: the payload does NOT list each group's endpoints in
configuration order — `get_payload` sorts each group's site list
alphabetically by name, which differs from the injected configuration order
(the first group starts with "Self-Service" in the configuration but with
"APPS Directory" in the payload). -/
theorem c8_counterexample :
    ((get_payload initState).groups.map (fun p => p.2.map (fun e => e.name)))
      ≠ SERVICE_GROUPS.map (fun p => p.2.map Prod.fst) := by
  decide

/-- C8 amended: the payload lists each group's endpoints sorted
alphabetically by name (Python string order); this order depends only on the
configuration, hence is identical across calls and across restarts; and each
completed cycle probes every configured endpoint exactly once, in
configuration order (the probe trace equals the duplicate-free configured
name list). -/
theorem c8_payload_order :
    (∀ st, (get_payload st).groups.map (fun p => (p.1, p.2.map (fun e => e.name)))
        = SERVICE_GROUPS.map (fun g => (g.1, sortNames (g.2.map Prod.fst)))) ∧
    configNames.Nodup ∧
    (∀ st (outs : List ProbeOutcome), outs.length = configSites.length →
      (runSites st (configSites.zip (outs.map StepInput.probe))).2.1 = configNames) := by
  refine ⟨?_, by decide, ?_⟩
  · intro st
    simp only [get_payload]
    exact payload_names_general st SERVICE_GROUPS
  · intro st outs h
    exact runSites_all_probe_trace configSites outs st h

/-- C8 amended witness: a full all-probe cycle's trace from the initial
state is exactly the configured name list. -/
theorem c8_payload_order_witness :
    (runSites initState (configSites.zip
        ((List.replicate 25 (ProbeOutcome.response 200 5 "t")).map StepInput.probe))).2.1
      = configNames :=
  c8_payload_order.2.2 initState (List.replicate 25 (ProbeOutcome.response 200 5 "t"))
    (by decide)

theorem runSites_all_probe_no_err (sites : List (String × String)) (outs : List ProbeOutcome)
    (st : MonState) :
    (runSites st (sites.zip (outs.map StepInput.probe))).2.2 = none := by
  induction sites generalizing outs st with
  | nil => rfl
  | cons a as ih =>
    cases outs with
    | nil => rfl
    | cons o os =>
      simp only [List.map, List.zip_cons_cons, runSites]
      show (runSites (processEndpoint st a.1 (check_website o))
          (as.zip (List.map StepInput.probe os))).2.2 = none
      exact ih os _

/-- C9: when a cycle processes the full endpoint list to completion (every
input is a probe outcome, no unexpected error), `last_check_time` is set to
the cycle's completion timestamp and the whole updated state is handed to
the persistence adapter (the snapshot written is exactly `save_history` of
the post-cycle state). -/
theorem c9_cycle_completion (st : MonState) (outs : List ProbeOutcome) (now : Timestamp)
    (_hlen : outs.length = configSites.length) :
    (monitorCycle st (outs.map StepInput.probe) now).1.last_check_time = some now ∧
    (monitorCycle st (outs.map StepInput.probe) now).2
      = some (save_history (monitorCycle st (outs.map StepInput.probe) now).1) := by
  have herr := runSites_all_probe_no_err configSites outs st
  cases hrs : runSites st (configSites.zip (outs.map StepInput.probe)) with
  | mk st' rest =>
    obtain ⟨tr, e⟩ := rest
    rw [hrs] at herr
    simp only at herr
    subst herr
    simp only [monitorCycle, hrs]
    exact ⟨trivial, trivial⟩

/-- C9 witness: a concrete completed cycle stamps its completion time. -/
theorem c9_cycle_completion_witness :
    (monitorCycle initState
        ((List.replicate 25 (ProbeOutcome.response 200 5 "t")).map StepInput.probe)
        7).1.last_check_time = some 7 :=
  (c9_cycle_completion initState (List.replicate 25 (ProbeOutcome.response 200 5 "t")) 7
    (by decide)).1

theorem mem_zip_fst (l1 : List α) (l2 : List β) (p : α × β) (h : p ∈ l1.zip l2) : p.1 ∈ l1 := by
  induction l1 generalizing l2 with
  | nil => simp [List.zip] at h
  | cons a as ih =>
    cases l2 with
    | nil => simp [List.zip] at h
    | cons b bs =>
      rw [List.zip_cons_cons] at h
      rcases List.mem_cons.mp h with h1 | h2
      · rw [h1]; exact List.mem_cons_self _ _
      · exact List.mem_cons_of_mem _ (ih bs h2)

theorem runSites_preserves_absent (l : List ((String × String) × StepInput)) (st : MonState)
    (name : String) (h : ∀ p ∈ l, p.1.1 ≠ name) :
    alookup (runSites st l).1.status_history name = alookup st.status_history name := by
  induction l generalizing st with
  | nil => rfl
  | cons p ps ih =>
    obtain ⟨site, inp⟩ := p
    cases inp with
    | probe o =>
      simp only [runSites]
      show alookup (runSites (processEndpoint st site.1 (check_website o)) ps).1.status_history
          name = _
      rw [ih _ (fun q hq => h q (List.mem_cons_of_mem _ hq))]
      exact processEndpoint_history_other _ _ _ _ (h (site, .probe o) (List.mem_cons_self _ _))
    | raise msg => rfl

theorem monitorCycle_preserves_absent (st : MonState) (inputs : List StepInput)
    (now : Timestamp) (name : String) (hcfg : name ∉ configNames) :
    alookup (monitorCycle st inputs now).1.status_history name
      = alookup st.status_history name := by
  have hall : ∀ p ∈ configSites.zip inputs, p.1.1 ≠ name := by
    intro p hp hc
    apply hcfg
    rw [← hc]
    exact List.mem_map_of_mem Prod.fst (mem_zip_fst _ _ _ hp)
  have hrun := runSites_preserves_absent _ st name hall
  cases hrs : runSites st (configSites.zip inputs) with
  | mk st' rest =>
    obtain ⟨tr, e⟩ := rest
    rw [hrs] at hrun
    cases e with
    | none => simp only [monitorCycle, hrs]; exact hrun
    | some m => simp only [monitorCycle, hrs]; exact hrun

theorem monitor_loop_preserves_absent (cycles : List (List StepInput × Timestamp))
    (st : MonState) (name : String) (hcfg : name ∉ configNames) :
    alookup (monitor_loop st cycles).status_history name
      = alookup st.status_history name := by
  induction cycles generalizing st with
  | nil => rfl
  | cons c cs ih =>
    obtain ⟨inputs, now⟩ := c
    simp only [monitor_loop]
    rw [ih, monitorCycle_preserves_absent st inputs now name hcfg]

theorem mem_insertByName (x e : SiteEntry) (l : List SiteEntry) (h : e ∈ insertByName x l) :
    e = x ∨ e ∈ l := by
  induction l with
  | nil => simp only [insertByName, List.mem_singleton] at h; exact Or.inl h
  | cons y ys ih =>
    simp only [insertByName] at h
    split at h
    · rcases List.mem_cons.mp h with h1 | h2
      · exact Or.inl h1
      · exact Or.inr h2
    · rcases List.mem_cons.mp h with h1 | h2
      · exact Or.inr (h1 ▸ List.mem_cons_self _ _)
      · rcases ih h2 with h3 | h4
        · exact Or.inl h3
        · exact Or.inr (List.mem_cons_of_mem _ h4)

theorem mem_sortByName (e : SiteEntry) (l : List SiteEntry) (h : e ∈ sortByName l) : e ∈ l := by
  unfold sortByName at h
  induction l with
  | nil => simp at h
  | cons x xs ih =>
    simp only [List.foldr] at h
    rcases mem_insertByName x e _ h with h1 | h2
    · exact h1 ▸ List.mem_cons_self _ _
    · exact List.mem_cons_of_mem _ (ih h2)

theorem mem_siteEntries (st : MonState) (sites : List (String × String)) (e : SiteEntry)
    (h : e ∈ siteEntries st sites) : e.name ∈ sites.map Prod.fst := by
  simp only [siteEntries, List.mem_map] at h
  obtain ⟨site, hs, he⟩ := h
  simp only [List.mem_map]
  exact ⟨site, hs, by rw [← he]⟩

theorem mem_config_of_mem_group (gs : List (String × List (String × String)))
    (g : String × List (String × String)) (x : String × String)
    (hg : g ∈ gs) (hx : x ∈ g.2) : x ∈ gs.foldr (fun a acc => a.2 ++ acc) [] := by
  induction gs with
  | nil => simp at hg
  | cons a as ih =>
    rcases List.mem_cons.mp hg with h1 | h2
    · rw [← h1]; simp only [List.foldr, List.mem_append]; exact Or.inl hx
    · simp only [List.foldr, List.mem_append]; exact Or.inr (ih h2)

theorem payload_names_configured (st : MonState) (g : String × List SiteEntry)
    (hg : g ∈ (get_payload st).groups) (e : SiteEntry) (he : e ∈ g.2) :
    e.name ∈ configNames := by
  simp only [get_payload, List.mem_map] at hg
  obtain ⟨grp, hgrp, hgg⟩ := hg
  rw [← hgg] at he
  have h1 := mem_sortByName _ _ he
  have h2 := mem_siteEntries st grp.2 e h1
  simp only [List.mem_map] at h2
  obtain ⟨site, hsite, hname⟩ := h2
  have h3 := mem_config_of_mem_group SERVICE_GROUPS grp site hgrp hsite
  simp only [configNames, configSites, List.mem_map]
  exact ⟨site, h3, hname⟩

theorem load_parsed_current (d : SnapshotData) (st : MonState) :
    (load_history (.parsed d) st).current_status = d.current := by
  simp only [load_history]
  cases d.last_check with
  | none => rfl
  | some s =>
    by_cases hs : s = ""
    · simp [hs]
    · cases hp : fromisoformat s <;> simp [hs, hp]

theorem processEndpoint_current_other (st : MonState) (name n : String) (r : ProbeResult)
    (h : name ≠ n) :
    alookup (processEndpoint st name r).current_status n = alookup st.current_status n := by
  simp only [processEndpoint]
  exact alookup_aupdate_ne _ _ _ _ h

theorem runSites_preserves_absent_current (l : List ((String × String) × StepInput))
    (st : MonState) (name : String) (h : ∀ p ∈ l, p.1.1 ≠ name) :
    alookup (runSites st l).1.current_status name = alookup st.current_status name := by
  induction l generalizing st with
  | nil => rfl
  | cons p ps ih =>
    obtain ⟨site, inp⟩ := p
    cases inp with
    | probe o =>
      simp only [runSites]
      show alookup (runSites (processEndpoint st site.1 (check_website o)) ps).1.current_status
          name = _
      rw [ih _ (fun q hq => h q (List.mem_cons_of_mem _ hq))]
      exact processEndpoint_current_other _ _ _ _ (h (site, .probe o) (List.mem_cons_self _ _))
    | raise msg => rfl

theorem monitorCycle_preserves_absent_current (st : MonState) (inputs : List StepInput)
    (now : Timestamp) (name : String) (hcfg : name ∉ configNames) :
    alookup (monitorCycle st inputs now).1.current_status name
      = alookup st.current_status name := by
  have hall : ∀ p ∈ configSites.zip inputs, p.1.1 ≠ name := by
    intro p hp hc
    apply hcfg
    rw [← hc]
    exact List.mem_map_of_mem Prod.fst (mem_zip_fst _ _ _ hp)
  have hrun := runSites_preserves_absent_current _ st name hall
  cases hrs : runSites st (configSites.zip inputs) with
  | mk st' rest =>
    obtain ⟨tr, e⟩ := rest
    rw [hrs] at hrun
    cases e with
    | none => simp only [monitorCycle, hrs]; exact hrun
    | some m => simp only [monitorCycle, hrs]; exact hrun

theorem monitor_loop_preserves_absent_current (cycles : List (List StepInput × Timestamp))
    (st : MonState) (name : String) (hcfg : name ∉ configNames) :
    alookup (monitor_loop st cycles).current_status name
      = alookup st.current_status name := by
  induction cycles generalizing st with
  | nil => rfl
  | cons c cs ih =>
    obtain ⟨inputs, now⟩ := c
    simp only [monitor_loop]
    rw [ih, monitorCycle_preserves_absent_current st inputs now name hcfg]

/-- C10: a persisted snapshot holding a history entry or a current-status
entry under a name that is not a configured endpoint retains that entry in
the in-memory state (the history truncated to capacity, the current entry
verbatim), keeps it unchanged through any number of monitor cycles, so that
every subsequent save re-persists it, and yet the read-API payload never
includes the name — it iterates only the configured endpoints. -/
theorem c10_unknown_names_retained (d : SnapshotData) (name : String)
    (hcfg : name ∉ configNames) :
    (∀ hist, alookup d.history name = some hist →
      alookup (load_history (.parsed d) initState).status_history name
          = some (tailKeep HISTORY_LENGTH hist) ∧
      ∀ cycles, alookup
          (save_history (monitor_loop (load_history (.parsed d) initState) cycles)).history
          name = some (tailKeep HISTORY_LENGTH hist)) ∧
    (∀ cur, alookup d.current name = some cur →
      alookup (load_history (.parsed d) initState).current_status name = some cur ∧
      ∀ cycles, alookup
          (save_history (monitor_loop (load_history (.parsed d) initState) cycles)).current
          name = some cur) ∧
    (∀ g ∈ (get_payload (load_history (.parsed d) initState)).groups,
      ∀ e ∈ g.2, e.name ≠ name) := by
  refine ⟨?_, ?_, ?_⟩
  · intro hist hmem
    have h1 : alookup (load_history (.parsed d) initState).status_history name
        = some (tailKeep HISTORY_LENGTH hist) := by
      rw [load_parsed_history]
      rw [show (fun p : String × List ProbeResult => (p.1, tailKeep HISTORY_LENGTH p.2))
          = (fun p : String × List ProbeResult =>
              (p.1, (fun l => tailKeep HISTORY_LENGTH l) p.2)) from rfl,
        alookup_map, hmem, Option.map_some']
    refine ⟨h1, ?_⟩
    intro cycles
    show alookup (monitor_loop (load_history (.parsed d) initState) cycles).status_history name
        = _
    rw [monitor_loop_preserves_absent cycles _ name hcfg, h1]
  · intro cur hmem
    have h2 : alookup (load_history (.parsed d) initState).current_status name = some cur := by
      rw [load_parsed_current]
      exact hmem
    refine ⟨h2, ?_⟩
    intro cycles
    show alookup (monitor_loop (load_history (.parsed d) initState) cycles).current_status name
        = _
    rw [monitor_loop_preserves_absent_current cycles _ name hcfg, h2]
  · intro g hg e he hc
    exact hcfg (hc ▸ payload_names_configured _ g hg e he)

/-- C10 witness: a snapshot with both a history entry and a current-status
entry under the non-configured name "Ghost" — both are retained by the load
and re-persisted by the immediate save. -/
theorem c10_unknown_names_retained_witness :
    alookup (load_history (.parsed ⟨[("Ghost", [upR])], [("Ghost", upR)], none⟩)
        initState).status_history "Ghost" = some (tailKeep HISTORY_LENGTH [upR]) ∧
    alookup (load_history (.parsed ⟨[("Ghost", [upR])], [("Ghost", upR)], none⟩)
        initState).current_status "Ghost" = some upR ∧
    alookup (save_history (monitor_loop (load_history
        (.parsed ⟨[("Ghost", [upR])], [("Ghost", upR)], none⟩) initState) [])).current
        "Ghost" = some upR :=
  ⟨((c10_unknown_names_retained ⟨[("Ghost", [upR])], [("Ghost", upR)], none⟩ "Ghost"
      (by decide)).1 [upR] (by decide)).1,
   ((c10_unknown_names_retained ⟨[("Ghost", [upR])], [("Ghost", upR)], none⟩ "Ghost"
      (by decide)).2.1 upR (by decide)).1,
   ((c10_unknown_names_retained ⟨[("Ghost", [upR])], [("Ghost", upR)], none⟩ "Ghost"
      (by decide)).2.1 upR (by decide)).2 []⟩
